import Mathlib

/-!
Verification of the Quindar break-in communicator's audio core against its
specification.  The Rust source (src/main.rs) is shallowly embedded here:

* `f32` values are modelled as exact reals (`ℝ`); pure rational arithmetic
  (envelope ramps, gains, rate percentages) is additionally kept in `ℚ`/`ℤ`
  where that makes statements decidable;
* `u32` arithmetic is modelled on `ℕ`; the one product that can overflow
  (`sample_rate * duration_ms` in the tone generator) is taken modulo `2^32`
  (Rust release semantics for unsigned overflow), and the one place where
  unsigned subtraction could in principle underflow is additionally modelled
  with a checked subtraction returning `Option`, following the Rust
  evaluation order exactly;
* fallible operations return `Except String`, mirroring `Result<_, String>`;
* the externally-provided primitives (Edge TTS connection/synthesis, the
  OpenAI HTTP call, the audio device, the decoder) are parameters of the
  model — the embedding records which of them are invoked and in what order.
-/

namespace Quindar

/-- Sample rate used throughout the program (`let sample_rate = 48000`). -/
def sampleRate : ℕ := 48000

/-- Number of samples of a `duration_ms` tone: `sample_rate * duration_ms / 1000`
computed in `u32`: the product is taken modulo `2^32` (Rust release semantics
for unsigned overflow — it wraps for `duration_ms >= 89479`), then divided
with integer division. -/
def totalSamples (durationMs : ℕ) : ℕ := sampleRate * durationMs % 2 ^ 32 / 1000

/-- Fade-in length in samples: `sample_rate * attack_ms / 1000` with
`attack_ms = 50`. -/
def attackSamples : ℕ := sampleRate * 50 / 1000

/-- Fade-out length in samples: `sample_rate * release_ms / 1000` with
`release_ms = 50`. -/
def releaseSamples : ℕ := sampleRate * 50 / 1000

/-- The envelope of `generate_quindar_tone_samples` at sample `i` of a tone of
`total` samples, translated branch for branch from the source:
fade in while `i < attack_samples`, fade out while
`i > total_samples - release_samples`, full volume in between.
The divisions are exact rational divisions (the source divides `f32`s). -/
def quindarEnvelope (total i : ℕ) : ℚ :=
  if i < attackSamples then (i : ℚ) / (attackSamples : ℚ)
  else if total - releaseSamples < i then ((total - i : ℕ) : ℚ) / (releaseSamples : ℚ)
  else 1

/-- Sample `i` of the Quindar tone: `(t * frequency * 2.0 * PI).sin()` times the
envelope times the `0.5` amplitude, with `t = i / sample_rate` and
`frequency = 2500.0`. -/
noncomputable def quindarSample (total i : ℕ) : ℝ :=
  Real.sin ((i : ℝ) / (sampleRate : ℝ) * 2500 * 2 * Real.pi)
    * (quindarEnvelope total i : ℝ) * 0.5

/-- The full buffer returned by `generate_quindar_tone_samples`:
`(0..total_samples).map(|i| ...).collect()`. -/
noncomputable def generate_quindar_tone_samples (durationMs : ℕ) : List ℝ :=
  (List.range (totalSamples durationMs)).map (quindarSample (totalSamples durationMs))

/-- Checked ℕ subtraction, modelling `u32` subtraction: defined exactly when it
does not underflow. -/
def checkedSub (a b : ℕ) : Option ℕ :=
  if b ≤ a then some (a - b) else none

/-- The envelope computation with the unsigned subtraction
`total_samples - release_samples` checked for underflow, in the evaluation
order of the source: the subtraction is only evaluated when the first branch
`i < attack_samples` was not taken. -/
def quindarEnvelopeChecked (total i : ℕ) : Option ℚ :=
  if i < attackSamples then some ((i : ℚ) / (attackSamples : ℚ))
  else
    match checkedSub total releaseSamples with
    | none => none
    | some cutoff =>
        if cutoff < i then some (((total - i : ℕ) : ℚ) / (releaseSamples : ℚ))
        else some 1

/-- The whole buffer computation with the checked envelope: `none` exactly when
some sample's envelope would underflow. -/
noncomputable def generate_quindar_tone_samples_checked (durationMs : ℕ) :
    Option (List ℝ) :=
  (List.range (totalSamples durationMs)).mapM fun i =>
    (quindarEnvelopeChecked (totalSamples durationMs) i).map fun env =>
      Real.sin ((i : ℝ) / (sampleRate : ℝ) * 2500 * 2 * Real.pi) * (env : ℝ) * 0.5

theorem quindarEnvelope_nonneg (total i : ℕ) : 0 ≤ quindarEnvelope total i := by
  unfold quindarEnvelope
  split
  · positivity
  · split
    · positivity
    · norm_num

theorem quindarEnvelope_le_one (total i : ℕ) (hi : i < total) :
    quindarEnvelope total i ≤ 1 := by
  unfold quindarEnvelope
  split
  · rw [div_le_one (by norm_num [attackSamples, sampleRate])]
    have : i ≤ attackSamples := le_of_lt (by assumption)
    exact_mod_cast this
  · split
    · rw [div_le_one (by norm_num [releaseSamples, sampleRate])]
      have h1 : ¬ i < attackSamples := by assumption
      have h2 : total - releaseSamples < i := by assumption
      have : total - i ≤ releaseSamples := by
        simp only [attackSamples, releaseSamples] at *
        omega
      exact_mod_cast this
    · norm_num

theorem abs_quindarSample_le (total i : ℕ) (hi : i < total) :
    |quindarSample total i| ≤ 1 / 2 := by
  unfold quindarSample
  rw [abs_mul, abs_mul]
  have hs : |Real.sin ((i : ℝ) / (sampleRate : ℝ) * 2500 * 2 * Real.pi)| ≤ 1 :=
    Real.abs_sin_le_one _
  have he0 : (0 : ℚ) ≤ quindarEnvelope total i := quindarEnvelope_nonneg total i
  have he1 : quindarEnvelope total i ≤ 1 := quindarEnvelope_le_one total i hi
  have he : |(quindarEnvelope total i : ℝ)| ≤ 1 := by
    rw [abs_of_nonneg (by exact_mod_cast he0)]
    exact_mod_cast he1
  have h05 : |(0.5 : ℝ)| = 0.5 := by norm_num
  calc |Real.sin ((i : ℝ) / (sampleRate : ℝ) * 2500 * 2 * Real.pi)|
        * |(quindarEnvelope total i : ℝ)| * |(0.5 : ℝ)|
      ≤ 1 * 1 * |(0.5 : ℝ)| := by
        apply mul_le_mul_of_nonneg_right _ (abs_nonneg _)
        exact mul_le_mul hs he (abs_nonneg _) zero_le_one
    _ = 1 / 2 := by norm_num

theorem quindarSample_zero (total : ℕ) : quindarSample total 0 = 0 := by
  unfold quindarSample
  norm_num

theorem getD_range_map {β : Type} (f : ℕ → β) (n i : ℕ) (h : i < n) (d : β) :
    ((List.range n).map f).getD i d = f i := by
  rw [List.getD_eq_getElem _ _ (by simpa using h)]
  simp

theorem mapM_option_eq_map {α β : Type} (f : α → Option β) (g : α → β)
    (l : List α) (h : ∀ a ∈ l, f a = some (g a)) : l.mapM f = some (l.map g) := by
  induction l with
  | nil => rfl
  | cons x xs ih =>
      rw [List.mapM_cons, List.map_cons, h x (List.mem_cons_self x xs),
        ih fun a ha => h a (List.mem_cons_of_mem x ha)]
      rfl

theorem quindarEnvelopeChecked_eq (total i : ℕ) (hi : i < total) :
    quindarEnvelopeChecked total i = some (quindarEnvelope total i) := by
  unfold quindarEnvelopeChecked quindarEnvelope checkedSub
  by_cases h1 : i < attackSamples
  · simp [h1]
  · have hle : releaseSamples ≤ total := by
      simp only [attackSamples, releaseSamples, sampleRate] at *
      omega
    simp only [h1, if_false, if_pos hle]
    by_cases h2 : total - releaseSamples < i <;> simp [h2]

end Quindar

/-- C4 (amended): `generate_quindar_tone_samples 500` has exactly `24000`
samples, its first sample is `0`, and every sample has absolute value at most
`0.5`; and for every `duration_ms` whose `u32` product `48000 * duration_ms`
does not overflow (`duration_ms <= 89478`, which covers both in-program call
sites, 500 ms and 250 ms), the sample count is
`sampleRate * durationMs / 1000`.  For larger durations the `u32` product
wraps and the count formula fails. -/
theorem quindar_tone_count_first_sample_and_bound :
    (Quindar.generate_quindar_tone_samples 500).length = 24000 ∧
    (Quindar.generate_quindar_tone_samples 500).getD 0 0 = 0 ∧
    (∀ i, i < 24000 → |(Quindar.generate_quindar_tone_samples 500).getD i 0| ≤ 1 / 2) ∧
    (∀ d, 48000 * d < 2 ^ 32 →
      (Quindar.generate_quindar_tone_samples d).length = 48000 * d / 1000) := by
  have htot : Quindar.totalSamples 500 = 24000 := by
    norm_num [Quindar.totalSamples, Quindar.sampleRate]
  refine ⟨?_, ?_, ?_, ?_⟩
  · simp [Quindar.generate_quindar_tone_samples, htot]
  · rw [Quindar.generate_quindar_tone_samples,
      Quindar.getD_range_map _ _ 0 (by omega) 0]
    exact Quindar.quindarSample_zero _
  · intro i hi
    rw [Quindar.generate_quindar_tone_samples,
      Quindar.getD_range_map _ _ i (by omega) 0]
    exact Quindar.abs_quindarSample_le _ i (by omega)
  · intro d hd
    have hlen : (Quindar.generate_quindar_tone_samples d).length
        = Quindar.totalSamples d := by
      simp [Quindar.generate_quindar_tone_samples]
    rw [hlen]
    unfold Quindar.totalSamples Quindar.sampleRate
    rw [Nat.mod_eq_of_lt hd]

/-- C4 counterexample: the count formula does not hold for every
`duration_ms`: at `duration_ms = 89479` the `u32` product
`48000 * 89479 = 4294992000` exceeds `u32::MAX` and wraps to `24704`, so the
program produces a 24-sample buffer where the claimed formula demands
`4294992` samples. -/
theorem quindar_count_formula_wraps_at_89479 :
    (Quindar.generate_quindar_tone_samples 89479).length = 24 ∧
    48000 * 89479 / 1000 = 4294992 ∧
    (Quindar.generate_quindar_tone_samples 89479).length ≠ 48000 * 89479 / 1000 := by
  have h : (Quindar.generate_quindar_tone_samples 89479).length
      = Quindar.totalSamples 89479 := by
    simp [Quindar.generate_quindar_tone_samples]
  refine ⟨?_, by decide, ?_⟩
  · rw [h]
    decide
  · rw [h]
    decide

/-- C5 counterexample: sample magnitude is not monotonically non-decreasing
over the fade-in window.  Indices 47 and 48 both lie in the first 50 ms
(first 2400 samples) of the 500 ms tone, yet the magnitude at index 48 is
strictly smaller than at index 47 (the 2500 Hz sine crosses zero there). -/
theorem quindar_fade_in_magnitude_not_monotone :
    47 < Quindar.attackSamples ∧ 48 < Quindar.attackSamples ∧
    |(Quindar.generate_quindar_tone_samples 500).getD 48 0|
      < |(Quindar.generate_quindar_tone_samples 500).getD 47 0| := by
  have htot : Quindar.totalSamples 500 = 24000 := by
    norm_num [Quindar.totalSamples, Quindar.sampleRate]
  have hatt : Quindar.attackSamples = 2400 := by
    norm_num [Quindar.attackSamples, Quindar.sampleRate]
  refine ⟨by omega, by omega, ?_⟩
  rw [Quindar.generate_quindar_tone_samples,
    Quindar.getD_range_map _ _ 48 (by omega) 0,
    Quindar.getD_range_map _ _ 47 (by omega) 0]
  have h48 : Quindar.quindarSample (Quindar.totalSamples 500) 48 = 0 := by
    unfold Quindar.quindarSample
    have harg : ((48 : ℕ) : ℝ) / ((Quindar.sampleRate : ℕ) : ℝ) * 2500 * 2 * Real.pi
        = ((5 : ℤ) : ℝ) * Real.pi := by
      norm_num [Quindar.sampleRate]
    rw [harg, Real.sin_int_mul_pi]
    ring
  have h47 : 0 < Quindar.quindarSample (Quindar.totalSamples 500) 47 := by
    unfold Quindar.quindarSample
    have harg : ((47 : ℕ) : ℝ) / ((Quindar.sampleRate : ℕ) : ℝ) * 2500 * 2 * Real.pi
        = 43 / 48 * Real.pi + ((2 : ℤ) : ℝ) * (2 * Real.pi) := by
      push_cast
      norm_num [Quindar.sampleRate]
      ring
    rw [harg, Real.sin_add_int_mul_two_pi]
    have hsin : 0 < Real.sin (43 / 48 * Real.pi) := by
      apply Real.sin_pos_of_pos_of_lt_pi
      · positivity
      · nlinarith [Real.pi_pos]
    have henv : (0 : ℝ) < (Quindar.quindarEnvelope (Quindar.totalSamples 500) 47 : ℚ) := by
      have : Quindar.quindarEnvelope (Quindar.totalSamples 500) 47 = 47 / 2400 := by
        unfold Quindar.quindarEnvelope
        rw [if_pos (by omega)]
        norm_num [Quindar.attackSamples, Quindar.sampleRate]
      rw [this]
      norm_num
    positivity
  rw [h48, abs_zero]
  exact abs_pos.mpr h47.ne'

/-- C5 (amended): the amplitude envelope of the Quindar tone — the factor the
sine wave is multiplied by — is monotonically non-decreasing over the fade-in
window (first 50 ms) and monotonically non-increasing from the end of the
attack to the end of the buffer, in particular over the fade-out window
(last 50 ms).  The raw sample magnitude is not monotone (the sine oscillates
under the envelope). -/
theorem quindar_envelope_monotone_on_fades :
    ∀ d i j,
      (i ≤ j ∧ j < Quindar.attackSamples →
        Quindar.quindarEnvelope (Quindar.totalSamples d) i
          ≤ Quindar.quindarEnvelope (Quindar.totalSamples d) j) ∧
      (Quindar.attackSamples ≤ i ∧ i ≤ j ∧ j < Quindar.totalSamples d →
        Quindar.quindarEnvelope (Quindar.totalSamples d) j
          ≤ Quindar.quindarEnvelope (Quindar.totalSamples d) i) := by
  intro d i j
  set total := Quindar.totalSamples d with htotal
  have hval : Quindar.attackSamples = 2400 ∧ Quindar.releaseSamples = 2400 := by
    constructor <;> norm_num [Quindar.attackSamples, Quindar.releaseSamples,
      Quindar.sampleRate]
  constructor
  · rintro ⟨hij, hj⟩
    have hi : i < Quindar.attackSamples := lt_of_le_of_lt hij hj
    unfold Quindar.quindarEnvelope
    rw [if_pos hi, if_pos hj]
    exact (div_le_div_iff_of_pos_right
      (by norm_num [hval.1] : (0:ℚ) < Quindar.attackSamples)).mpr (by exact_mod_cast hij)
  · rintro ⟨hai, hij, hj⟩
    have haj : ¬ j < Quindar.attackSamples := by omega
    have hani : ¬ i < Quindar.attackSamples := by omega
    unfold Quindar.quindarEnvelope
    rw [if_neg hani, if_neg haj]
    have hrel : (0 : ℚ) < Quindar.releaseSamples := by norm_num [hval.2]
    by_cases hjf : total - Quindar.releaseSamples < j
    · rw [if_pos hjf]
      by_cases hif : total - Quindar.releaseSamples < i
      · rw [if_pos hif]
        apply (div_le_div_iff_of_pos_right hrel).mpr
        have : total - j ≤ total - i := by omega
        exact_mod_cast this
      · rw [if_neg hif]
        rw [div_le_one hrel]
        have : total - j ≤ Quindar.releaseSamples := by omega
        exact_mod_cast this
    · have hif : ¬ total - Quindar.releaseSamples < i := by omega
      rw [if_neg hjf, if_neg hif]


/-- C10 (amended): `generate_quindar_tone_samples` is total for every
`duration_ms`, including durations below 50 ms: the unsigned subtraction
`total_samples - release_samples` sits in an `else if` branch that is only
evaluated when `i >= attack_samples`, and since `i < total_samples` that
forces `total_samples > release_samples`, so the subtraction never underflows.
The checked-arithmetic model always returns the unchecked buffer.  (Both
in-program call sites, 500 ms and 250 ms, are in particular safe.) -/
theorem quindar_generator_never_underflows :
    ∀ d, Quindar.generate_quindar_tone_samples_checked d
        = some (Quindar.generate_quindar_tone_samples d) := by
  intro d
  unfold Quindar.generate_quindar_tone_samples_checked
    Quindar.generate_quindar_tone_samples
  apply Quindar.mapM_option_eq_map
  intro i hi
  rw [Quindar.quindarEnvelopeChecked_eq _ _ (List.mem_range.mp hi)]
  rfl

/-- C10 counterexample: the claim asserts that for `duration_ms < 50` the
subtraction underflows; but at `duration_ms = 25` (1200 samples, all inside
the 2400-sample attack window) the fade-out branch is never reached and the
checked computation succeeds. -/
theorem quindar_duration_25_does_not_underflow :
    25 < 50 ∧ Quindar.generate_quindar_tone_samples_checked 25
        = some (Quindar.generate_quindar_tone_samples 25) := by
  refine ⟨by omega, ?_⟩
  unfold Quindar.generate_quindar_tone_samples_checked
    Quindar.generate_quindar_tone_samples
  apply Quindar.mapM_option_eq_map
  intro i hi
  rw [Quindar.quindarEnvelopeChecked_eq _ _ (List.mem_range.mp hi)]
  rfl

namespace Chime

/-- Sample rate of the chime generator. -/
def sampleRate : ℕ := 48000

/-- Samples per 800 ms note: `sample_rate * note_duration_ms / 1000`. -/
def noteSamples : ℕ := sampleRate * 800 / 1000

/-- Samples of the 300 ms overlap between notes. -/
def overlapSamples : ℕ := sampleRate * 300 / 1000

/-- Samples of the 10 ms soft attack. -/
def attackSamples : ℕ := sampleRate * 10 / 1000

/-- Offset between note starts: `note_samples - overlap_samples`. -/
def noteSpacing : ℕ := noteSamples - overlapSamples

/-- Total buffer length: `note_samples + note_spacing * 2 + sample_rate / 2`. -/
def totalLength : ℕ := noteSamples + noteSpacing * 2 + sampleRate / 2

/-- First echo offset: `sample_rate * 120 / 1000`. -/
def echo1Offset : ℕ := sampleRate * 120 / 1000

/-- Second echo offset: `sample_rate * 240 / 1000`. -/
def echo2Offset : ℕ := sampleRate * 240 / 1000

/-- The three note frequencies C5, E5, G5: `[523.25, 659.25, 783.99]`. -/
noncomputable def frequencies : List ℝ := [523.25, 659.25, 783.99]

/-- The un-enveloped waveform of one note at sample `i`: fundamental plus an
octave harmonic at 0.15 amplitude and a fifth harmonic at 0.1 amplitude,
exactly as the source sums `sine_wave + harmonic_1 + harmonic_2`. -/
noncomputable def combinedWave (freq : ℝ) (i : ℕ) : ℝ :=
  Real.sin ((i : ℝ) / (sampleRate : ℝ) * freq * 2 * Real.pi)
  + Real.sin ((i : ℝ) / (sampleRate : ℝ) * freq * 2 * 2 * Real.pi) * 0.15
  + Real.sin ((i : ℝ) / (sampleRate : ℝ) * freq * 1.5 * 2 * Real.pi) * 0.1

/-- The note envelope of the source: a linear attack scaled to `0.5` over the
first 10 ms, then `exp(-decay_t * 1.8) * 0.5` with
`decay_t = (i - attack_samples) / note_samples`. -/
noncomputable def noteEnvelope (i : ℕ) : ℝ :=
  if i < attackSamples then ((i : ℝ) / (attackSamples : ℝ)) * 0.5
  else Real.exp (-(((i - attackSamples : ℕ) : ℝ) / (noteSamples : ℝ)) * 1.8) * 0.5

/-- `with_envelope` of the source: the combined waveform times the envelope. -/
noncomputable def withEnvelope (freq : ℝ) (i : ℕ) : ℝ :=
  combinedWave freq i * noteEnvelope i

/-- A single guarded in-place addition `if position < result.len() { result[position] += v }`. -/
noncomputable def addAt (buf : List ℝ) (p : ℕ) (v : ℝ) : List ℝ :=
  if p < buf.length then buf.set p (buf.getD p 0 + v) else buf

/-- The sequence of buffer additions one note performs, in source order: for
each `i` in `0..note_samples`, the main signal at the note's position at
`0.25` gain, the first echo at `+120` ms at `0.12` gain and the second echo at
`+240` ms at `0.06` gain. -/
noncomputable def noteUpdates (idx : ℕ) (freq : ℝ) : List (ℕ × ℝ) :=
  (List.range noteSamples).flatMap fun i =>
    [(idx * noteSpacing + i, withEnvelope freq i * 0.25),
     (idx * noteSpacing + i + echo1Offset, withEnvelope freq i * 0.12),
     (idx * noteSpacing + i + echo2Offset, withEnvelope freq i * 0.06)]

/-- All buffer additions of the chime: the outer
`for (idx, frequency) in frequencies.iter().enumerate()` loop. -/
noncomputable def chimeUpdates : List (ℕ × ℝ) :=
  frequencies.enum.flatMap fun pr => noteUpdates pr.1 pr.2

/-- Folding a list of guarded additions over a buffer. -/
noncomputable def applyUpdates (buf : List ℝ) (us : List (ℕ × ℝ)) : List ℝ :=
  us.foldl (fun b pv => addAt b pv.1 pv.2) buf

/-- `generate_three_note_chime`: all additions applied to the pre-zeroed
buffer `vec![0.0; total_length]`. -/
noncomputable def generate_three_note_chime : List ℝ :=
  applyUpdates (List.replicate totalLength 0) chimeUpdates

theorem length_addAt (buf : List ℝ) (p : ℕ) (v : ℝ) :
    (addAt buf p v).length = buf.length := by
  unfold addAt
  split <;> simp

theorem length_applyUpdates (us : List (ℕ × ℝ)) (buf : List ℝ) :
    (applyUpdates buf us).length = buf.length := by
  induction us generalizing buf with
  | nil => rfl
  | cons u us ih =>
      unfold applyUpdates
      rw [List.foldl_cons]
      exact (ih (addAt buf u.1 u.2)).trans (length_addAt buf u.1 u.2)

/-- Total weight a list of updates adds at position `p` of a buffer of length
`len` (out-of-range updates are dropped, as `addAt` drops them). -/
noncomputable def hitWeight (len p : ℕ) : List (ℕ × ℝ) → ℝ
  | [] => 0
  | u :: us => (if u.1 = p ∧ u.1 < len then u.2 else 0) + hitWeight len p us

theorem getD_addAt (buf : List ℝ) (q p : ℕ) (v : ℝ) :
    (addAt buf p v).getD q 0
      = buf.getD q 0 + (if p = q ∧ p < buf.length then v else 0) := by
  unfold addAt
  by_cases hp : p < buf.length
  · rw [if_pos hp]
    by_cases hq : p = q
    · subst hq
      rw [if_pos ⟨rfl, hp⟩, List.getD_eq_getElem _ _ (by simpa using hp),
        List.getElem_set_self]
    · rw [if_neg (by tauto)]
      have : (buf.set p (buf.getD p 0 + v)).getD q 0 = buf.getD q 0 := by
        simp only [List.getD, List.get?_eq_getElem?, List.getElem?_set_ne hq]
      rw [this, add_zero]
  · rw [if_neg hp, if_neg (by tauto), add_zero]

theorem getD_applyUpdates (us : List (ℕ × ℝ)) (buf : List ℝ) (q : ℕ) :
    (applyUpdates buf us).getD q 0 = buf.getD q 0 + hitWeight buf.length q us := by
  induction us generalizing buf with
  | nil => simp [applyUpdates, hitWeight]
  | cons u us ih =>
      unfold applyUpdates
      rw [List.foldl_cons]
      have step : (applyUpdates (addAt buf u.1 u.2) us).getD q 0
          = (addAt buf u.1 u.2).getD q 0
            + hitWeight (addAt buf u.1 u.2).length q us := ih (addAt buf u.1 u.2)
      unfold applyUpdates at step
      rw [step, length_addAt, getD_addAt, hitWeight]
      ring

theorem hitWeight_append (len p : ℕ) (a b : List (ℕ × ℝ)) :
    hitWeight len p (a ++ b) = hitWeight len p a + hitWeight len p b := by
  induction a with
  | nil => simp [hitWeight]
  | cons u us ih => rw [List.cons_append, hitWeight, hitWeight, ih, add_assoc]

theorem hitWeight_flatMap {α : Type} (len p : ℕ) (l : List α) (f : α → List (ℕ × ℝ)) :
    hitWeight len p (l.flatMap f) = (l.map fun x => hitWeight len p (f x)).sum := by
  induction l with
  | nil => rfl
  | cons x xs ih =>
      rw [List.flatMap_cons, hitWeight_append, List.map_cons, List.sum_cons, ih]

end Chime

namespace Chime

/-- The envelope exactly as the specification words it: a soft linear attack
over the first 10 ms scaled to 0.5 peak, followed by exponential decay
`exp(-1.8 * t)` scaled by 0.5, where `t` is the fractional progress (measured
from the end of the attack) through the note's nominal duration. -/
noncomputable def specChimeEnvelope (i : ℕ) : ℝ :=
  if i < 480 then ((i : ℝ) / 480) * 0.5
  else Real.exp (-1.8 * (((i - 480 : ℕ) : ℝ) / 38400)) * 0.5

/-- The enveloped signal as the specification words it: fundamental plus
`0.15` of the octave harmonic plus `0.1` of the fifth harmonic, times the
envelope. -/
noncomputable def specEnvelopedSignal (freq : ℝ) (i : ℕ) : ℝ :=
  (Real.sin (2 * Real.pi * freq * ((i : ℝ) / 48000))
   + 0.15 * Real.sin (2 * Real.pi * (freq * 2) * ((i : ℝ) / 48000))
   + 0.1 * Real.sin (2 * Real.pi * (freq * 1.5) * ((i : ℝ) / 48000)))
  * specChimeEnvelope i

/-- The mixed buffer value at position `p` as the specification words it: the
sum over the three notes and their sample indices of the enveloped signal at
`0.25` gain at the note's own offset (`24000 * idx`), `0.12` at `+120` ms
(`+5760` samples) and `0.06` at `+240` ms (`+11520` samples). -/
noncomputable def specChimeMix (p : ℕ) : ℝ :=
  ((List.range 3).map fun idx =>
    ((List.range 38400).map fun i =>
      (if 24000 * idx + i = p
        then 0.25 * specEnvelopedSignal (frequencies.getD idx 0) i else 0)
      + (if 24000 * idx + i + 5760 = p
          then 0.12 * specEnvelopedSignal (frequencies.getD idx 0) i else 0)
      + (if 24000 * idx + i + 11520 = p
          then 0.06 * specEnvelopedSignal (frequencies.getD idx 0) i else 0)).sum).sum

theorem withEnvelope_eq_spec (freq : ℝ) (i : ℕ) :
    withEnvelope freq i = specEnvelopedSignal freq i := by
  unfold withEnvelope combinedWave noteEnvelope specEnvelopedSignal specChimeEnvelope
  have hsr : ((sampleRate : ℕ) : ℝ) = 48000 := by norm_num [sampleRate]
  have ha : attackSamples = 480 := by decide
  have hn : noteSamples = 38400 := by decide
  rw [hsr, ha, hn]
  have e1 : (i : ℝ) / 48000 * freq * 2 * Real.pi
      = 2 * Real.pi * freq * ((i : ℝ) / 48000) := by ring
  have e2 : (i : ℝ) / 48000 * freq * 2 * 2 * Real.pi
      = 2 * Real.pi * (freq * 2) * ((i : ℝ) / 48000) := by ring
  have e3 : (i : ℝ) / 48000 * freq * 1.5 * 2 * Real.pi
      = 2 * Real.pi * (freq * 1.5) * ((i : ℝ) / 48000) := by ring
  rw [e1, e2, e3]
  have henv :
      (if i < 480 then ((i : ℝ) / ((480 : ℕ) : ℝ)) * 0.5
        else Real.exp (-(((i - 480 : ℕ) : ℝ) / ((38400 : ℕ) : ℝ)) * 1.8) * 0.5)
      = (if i < 480 then ((i : ℝ) / 480) * 0.5
        else Real.exp (-1.8 * (((i - 480 : ℕ) : ℝ) / 38400)) * 0.5) := by
    split
    · norm_num
    · norm_num
      ring_nf
  rw [henv]
  ring

theorem hitWeight_noteUpdates (idx : ℕ) (freq : ℝ) (p : ℕ) (hp : p < totalLength) :
    hitWeight totalLength p (noteUpdates idx freq)
      = ((List.range noteSamples).map fun i =>
          (if 24000 * idx + i = p then 0.25 * specEnvelopedSignal freq i else 0)
          + (if 24000 * idx + i + 5760 = p
              then 0.12 * specEnvelopedSignal freq i else 0)
          + (if 24000 * idx + i + 11520 = p
              then 0.06 * specEnvelopedSignal freq i else 0)).sum := by
  unfold noteUpdates
  rw [hitWeight_flatMap]
  apply congrArg List.sum
  apply List.map_congr_left
  intro i hi
  simp only [hitWeight]
  have hsp : noteSpacing = 24000 := by decide
  have he1 : echo1Offset = 5760 := by decide
  have he2 : echo2Offset = 11520 := by decide
  have hmc : idx * 24000 = 24000 * idx := Nat.mul_comm idx 24000
  rw [hsp, he1, he2, hmc]
  have hval : ∀ c : ℝ, withEnvelope freq i * c = c * specEnvelopedSignal freq i := by
    intro c
    rw [withEnvelope_eq_spec]
    ring
  have hiff : ∀ pos : ℕ, (pos = p ∧ pos < totalLength) ↔ pos = p :=
    fun pos => ⟨fun h => h.1, fun h => ⟨h, h ▸ hp⟩⟩
  rw [if_congr (hiff _) (hval 0.25) rfl, if_congr (hiff _) (hval 0.12) rfl,
    if_congr (hiff _) (hval 0.06) rfl]
  ring

end Chime

/-- C6: the three-note chime buffer has exactly
`noteSamples + 2 * (noteSamples - overlapSamples) + sampleRate / 2` samples,
that is `110400` samples. -/
theorem chime_buffer_length :
    Chime.generate_three_note_chime.length
      = Chime.noteSamples + 2 * (Chime.noteSamples - Chime.overlapSamples)
        + Chime.sampleRate / 2 ∧
    Chime.generate_three_note_chime.length = 110400 := by
  have h : Chime.generate_three_note_chime.length = Chime.totalLength := by
    unfold Chime.generate_three_note_chime
    rw [Chime.length_applyUpdates, List.length_replicate]
  refine ⟨?_, ?_⟩ <;> rw [h] <;> decide

/-- C7: for every position `p` of the chime buffer, the rendered value equals
the specification's mix formula: the sum, over the three notes and each
in-note sample index, of the enveloped signal — `(fundamental + 0.15·octave +
0.1·fifth) · envelope`, with a 10 ms linear attack to 0.5 and decay
`exp(-1.8·t)·0.5` for `t` the fractional progress past the attack through the
nominal duration — contributed at gain 0.25 at the note's own offset, 0.12 at
`+120` ms and 0.06 at `+240` ms, into the pre-zeroed buffer. -/
theorem chime_mix_matches_spec (p : ℕ) (hp : p < 110400) :
    Chime.generate_three_note_chime.getD p 0 = Chime.specChimeMix p := by
  have hp' : p < Chime.totalLength := hp
  unfold Chime.generate_three_note_chime
  rw [Chime.getD_applyUpdates, List.length_replicate]
  have hz : (List.replicate Chime.totalLength (0:ℝ)).getD p 0 = 0 := by
    simp [List.getD, List.getElem?_replicate]
    split <;> simp
  rw [hz, zero_add]
  unfold Chime.chimeUpdates
  rw [Chime.hitWeight_flatMap]
  have henum : Chime.frequencies.enum
      = [(0, (523.25 : ℝ)), (1, 659.25), (2, 783.99)] := by
    simp [Chime.frequencies, List.enum]
  rw [henum]
  unfold Chime.specChimeMix
  rw [show List.range 3 = [0, 1, 2] from rfl]
  simp only [List.map_cons, List.map_nil, List.sum_cons, List.sum_nil]
  rw [Chime.hitWeight_noteUpdates 0 _ p hp', Chime.hitWeight_noteUpdates 1 _ p hp',
    Chime.hitWeight_noteUpdates 2 _ p hp']
  norm_num [Chime.frequencies, Chime.noteSamples, Chime.sampleRate]

/-- C7 witness: the equality of buffer and specification formula at the
concrete position `0`. -/
theorem chime_mix_matches_spec_at_zero :
    0 < 110400 ∧ Chime.generate_three_note_chime.getD 0 0 = Chime.specChimeMix 0 :=
  ⟨by norm_num, chime_mix_matches_spec 0 (by norm_num)⟩

namespace Edge

/-- Rounding half away from zero, the semantics of Rust's `f32::round`. -/
noncomputable def roundHalfAway (x : ℝ) : ℤ :=
  if 0 ≤ x then ⌊x + 1 / 2⌋ else ⌈x - 1 / 2⌉

/-- Saturating conversion to the `i32` range, the semantics of Rust's
float-to-integer `as i32` cast. -/
def i32Saturate (n : ℤ) : ℤ := max (-2147483648) (min 2147483647 n)

/-- `let rate_percent = ((speed - 1.0) * 100.0).round() as i32`. -/
noncomputable def rate_percent (speed : ℝ) : ℤ :=
  i32Saturate (roundHalfAway ((speed - 1) * 100))

/-- The rate string of `get_edge_tts`: a plus sign is prepended when
`rate_percent >= 0`, the percent sign is appended either way. -/
noncomputable def rate_str (speed : ℝ) : String :=
  if 0 ≤ rate_percent speed then "+" ++ toString (rate_percent speed) ++ "%"
  else toString (rate_percent speed) ++ "%"

/-- The rate string exactly as the claim words it: the signed percentage
`round((speed - 1) * 100)` with an explicit plus when non-negative — with no
`i32` saturation. -/
noncomputable def claimedRateStr (speed : ℝ) : String :=
  if 0 ≤ roundHalfAway ((speed - 1) * 100)
  then "+" ++ toString (roundHalfAway ((speed - 1) * 100)) ++ "%"
  else toString (roundHalfAway ((speed - 1) * 100)) ++ "%"

/-- The six generic OpenAI voice names that are replaced by the configured
default Edge voice. -/
def genericVoices : List String := ["alloy", "echo", "fable", "onyx", "nova", "shimmer"]

/-- The voice selection of `get_edge_tts`: the six generic names map to the
configured default Edge voice, every other name passes through. -/
def final_voice (edgeVoice voice : String) : String :=
  if voice = "alloy" ∨ voice = "echo" ∨ voice = "fable" ∨ voice = "onyx"
      ∨ voice = "nova" ∨ voice = "shimmer"
  then edgeVoice else voice

end Edge

/-- C8 (amended): whenever the rounded percentage fits in `i32` — which holds
throughout the documented speed range 0.25–4.0 — the rate string is exactly
the claim's signed-percentage format, and the voice mapping sends each of the
six generic names to the configured default Edge voice and passes every other
name through unchanged. -/
theorem edge_rate_and_voice_mapping :
    ∀ (speed : ℝ) (edgeVoice voice : String),
      (-2147483648 ≤ Edge.roundHalfAway ((speed - 1) * 100) ∧
          Edge.roundHalfAway ((speed - 1) * 100) ≤ 2147483647 →
        Edge.rate_str speed = Edge.claimedRateStr speed) ∧
      (voice ∈ Edge.genericVoices → Edge.final_voice edgeVoice voice = edgeVoice) ∧
      (voice ∉ Edge.genericVoices → Edge.final_voice edgeVoice voice = voice) := by
  intro speed edgeVoice voice
  refine ⟨?_, ?_, ?_⟩
  · rintro ⟨hlo, hhi⟩
    have hsat : Edge.rate_percent speed = Edge.roundHalfAway ((speed - 1) * 100) := by
      unfold Edge.rate_percent Edge.i32Saturate
      omega
    unfold Edge.rate_str Edge.claimedRateStr
    rw [hsat]
  · intro hv
    have : voice = "alloy" ∨ voice = "echo" ∨ voice = "fable" ∨ voice = "onyx"
        ∨ voice = "nova" ∨ voice = "shimmer" := by
      simpa [Edge.genericVoices] using hv
    unfold Edge.final_voice
    exact if_pos this
  · intro hv
    have : ¬ (voice = "alloy" ∨ voice = "echo" ∨ voice = "fable" ∨ voice = "onyx"
        ∨ voice = "nova" ∨ voice = "shimmer") := by
      simpa [Edge.genericVoices] using hv
    unfold Edge.final_voice
    exact if_neg this

/-- C8 witness: at the concrete speed `1.5` the rounded percentage `50` is in
the `i32` range and the produced string matches the claimed format. -/
theorem edge_rate_matches_claim_at_speed_1_5 :
    Edge.rate_str 1.5 = Edge.claimedRateStr 1.5 ∧
    Edge.final_voice "en-US-AndrewNeural" "alloy" = "en-US-AndrewNeural" ∧
    Edge.final_voice "en-US-AndrewNeural" "en-GB-SoniaNeural" = "en-GB-SoniaNeural" := by
  have hr : Edge.roundHalfAway (((1.5 : ℝ) - 1) * 100) = 50 := by
    unfold Edge.roundHalfAway
    rw [if_pos (by norm_num), Int.floor_eq_iff]
    norm_num
  refine ⟨(edge_rate_and_voice_mapping 1.5 "x" "x").1 (by rw [hr]; omega), ?_, ?_⟩
  · exact (edge_rate_and_voice_mapping 1.5 "en-US-AndrewNeural" "alloy").2.1
      (by simp [Edge.genericVoices])
  · exact (edge_rate_and_voice_mapping 1.5 "en-US-AndrewNeural" "en-GB-SoniaNeural").2.2
      (by simp [Edge.genericVoices])

/-- C8 counterexample: at the (unrealistic but admissible) speed `100000001`
the rounded percentage is `10^10`, outside the `i32` range, so the saturating
`as i32` cast produces `"+2147483647%"` while the claim's formula demands
`"+10000000000%"`. -/
theorem edge_rate_saturates_at_huge_speed :
    Edge.rate_str 100000001 = "+2147483647%" ∧
    Edge.claimedRateStr 100000001 = "+10000000000%" ∧
    Edge.rate_str 100000001 ≠ Edge.claimedRateStr 100000001 := by
  have hr : Edge.roundHalfAway (((100000001 : ℝ) - 1) * 100) = 10000000000 := by
    unfold Edge.roundHalfAway
    rw [if_pos (by norm_num), Int.floor_eq_iff]
    norm_num
  have hsat : Edge.rate_percent 100000001 = 2147483647 := by
    unfold Edge.rate_percent
    rw [hr]
    unfold Edge.i32Saturate
    decide
  refine ⟨?_, ?_, ?_⟩
  · unfold Edge.rate_str
    rw [hsat, if_pos (by omega)]
    rfl
  · unfold Edge.claimedRateStr
    rw [hr, if_pos (by omega)]
    rfl
  · unfold Edge.rate_str Edge.claimedRateStr
    rw [hsat, hr, if_pos (by omega), if_pos (by omega)]
    decide

namespace EdgeTTS

/-- Observable events of the retry loop: the start of an attempt, and the
fixed inter-attempt sleep (`tokio::time::sleep(300 ms)`). -/
inductive Ev where
  | attempt (n : ℕ)
  | wait (ms : ℕ)
deriving DecidableEq, Repr

/-- The two external effects one attempt performs: `connect_async()` and
`client.synthesize(...)`, given here as oracles indexed by attempt number. -/
structure Oracle where
  connect : ℕ → Except String Unit
  synth : ℕ → Except String (List ℕ)

/-- `let max_retries = 3`. -/
def maxRetries : ℕ := 3

/-- The error message the connection step produces. -/
def connectError (e : String) : String := "Failed to connect to Edge TTS: " ++ e

/-- The error message the synthesis step produces. -/
def synthError (e : String) : String := "Failed to synthesize speech: " ++ e

/-- The combined outcome of one loop iteration: the connection step, then the
synthesis step, first failure wins. -/
def attemptOutcome (o : Oracle) (n : ℕ) : Except String (List ℕ) :=
  match o.connect n with
  | Except.error e => Except.error (connectError e)
  | Except.ok _ =>
      match o.synth n with
      | Except.ok bytes => Except.ok bytes
      | Except.error e => Except.error (synthError e)

/-- The retry loop `for attempt in 1..=max_retries` of `get_edge_tts`,
translated branch for branch; `fuel` is the number of remaining loop
iterations (the loop body is entered at most `max_retries` times), `attempt`
the current attempt number.  On a failure with `attempt < max_retries` the
loop sleeps 300 ms and continues; on the last attempt a connection failure
returns the connection error and a synthesis failure falls out of the loop
and returns `last_error`, which that failure just set — the same value. -/
def runAttempts (o : Oracle) : ℕ → ℕ → Except String (List ℕ) × List Ev
  | 0, _ => (Except.error "", [])
  | fuel + 1, attempt =>
      match o.connect attempt with
      | Except.error e =>
          if attempt < maxRetries then
            let r := runAttempts o fuel (attempt + 1)
            (r.1, Ev.attempt attempt :: Ev.wait 300 :: r.2)
          else (Except.error (connectError e), [Ev.attempt attempt])
      | Except.ok _ =>
          match o.synth attempt with
          | Except.ok bytes => (Except.ok bytes, [Ev.attempt attempt])
          | Except.error e =>
              if attempt < maxRetries then
                let r := runAttempts o fuel (attempt + 1)
                (r.1, Ev.attempt attempt :: Ev.wait 300 :: r.2)
              else (Except.error (synthError e), [Ev.attempt attempt])

/-- The fetch of `get_edge_tts` past the voice/rate preparation: the retry
loop started at attempt 1. -/
def get_edge_tts (o : Oracle) : Except String (List ℕ) × List Ev :=
  runAttempts o maxRetries 1

/-- The event trace of a run of `k` attempts: attempts `1..k` with one 300 ms
sleep between consecutive attempts. -/
def expectedTrace (k : ℕ) : List Ev :=
  List.intersperse (Ev.wait 300) ((List.range k).map fun j => Ev.attempt (1 + j))

theorem runAttempts_step (o : Oracle) (fuel attempt : ℕ) (h : attempt < maxRetries) :
    runAttempts o (fuel + 1) attempt
      = match attemptOutcome o attempt with
        | Except.ok b => (Except.ok b, [Ev.attempt attempt])
        | Except.error _ =>
            ((runAttempts o fuel (attempt + 1)).1,
              Ev.attempt attempt :: Ev.wait 300 :: (runAttempts o fuel (attempt + 1)).2) := by
  cases hc : o.connect attempt with
  | error e => simp only [runAttempts, attemptOutcome, hc, if_pos h]
  | ok u =>
      cases hs : o.synth attempt with
      | error e => simp only [runAttempts, attemptOutcome, hc, hs, if_pos h]
      | ok b => simp only [runAttempts, attemptOutcome, hc, hs]

theorem runAttempts_final (o : Oracle) (fuel : ℕ) :
    runAttempts o (fuel + 1) 3
      = match attemptOutcome o 3 with
        | Except.ok b => (Except.ok b, [Ev.attempt 3])
        | Except.error e => (Except.error e, [Ev.attempt 3]) := by
  cases hc : o.connect 3 with
  | error e =>
      simp only [runAttempts, attemptOutcome, hc, if_neg (by decide : ¬ (3 < maxRetries))]
  | ok u =>
      cases hs : o.synth 3 with
      | error e =>
          simp only [runAttempts, attemptOutcome, hc, hs,
            if_neg (by decide : ¬ (3 < maxRetries))]
      | ok b => simp only [runAttempts, attemptOutcome, hc, hs]

end EdgeTTS

/-- C2: the EdgeStyle retry loop makes at most 3 attempts with a fixed 300 ms
sleep between consecutive attempts (each attempt covering connection and
synthesis), returns success as soon as an attempt's synthesis succeeds — in
particular after exactly 3 attempts when two failures precede a success — and
returns the last attempt's error when all 3 attempts fail. -/
theorem edge_retry_policy (o : EdgeTTS.Oracle) :
    (∃ k, 1 ≤ k ∧ k ≤ 3 ∧ (EdgeTTS.get_edge_tts o).2 = EdgeTTS.expectedTrace k) ∧
    (∀ b, EdgeTTS.attemptOutcome o 1 = Except.ok b →
        EdgeTTS.get_edge_tts o = (Except.ok b, EdgeTTS.expectedTrace 1)) ∧
    (∀ e1 b, EdgeTTS.attemptOutcome o 1 = Except.error e1 →
        EdgeTTS.attemptOutcome o 2 = Except.ok b →
        EdgeTTS.get_edge_tts o = (Except.ok b, EdgeTTS.expectedTrace 2)) ∧
    (∀ e1 e2 b, EdgeTTS.attemptOutcome o 1 = Except.error e1 →
        EdgeTTS.attemptOutcome o 2 = Except.error e2 →
        EdgeTTS.attemptOutcome o 3 = Except.ok b →
        EdgeTTS.get_edge_tts o = (Except.ok b, EdgeTTS.expectedTrace 3)) ∧
    (∀ e1 e2 e3, EdgeTTS.attemptOutcome o 1 = Except.error e1 →
        EdgeTTS.attemptOutcome o 2 = Except.error e2 →
        EdgeTTS.attemptOutcome o 3 = Except.error e3 →
        EdgeTTS.get_edge_tts o = (Except.error e3, EdgeTTS.expectedTrace 3)) := by
  have hrun : EdgeTTS.get_edge_tts o = EdgeTTS.runAttempts o 3 1 := rfl
  have hs1 : EdgeTTS.runAttempts o 3 1
      = match EdgeTTS.attemptOutcome o 1 with
        | Except.ok b => (Except.ok b, [EdgeTTS.Ev.attempt 1])
        | Except.error _ =>
            ((EdgeTTS.runAttempts o 2 2).1,
              EdgeTTS.Ev.attempt 1 :: EdgeTTS.Ev.wait 300
                :: (EdgeTTS.runAttempts o 2 2).2) :=
    EdgeTTS.runAttempts_step o 2 1 (by decide)
  have hs2 : EdgeTTS.runAttempts o 2 2
      = match EdgeTTS.attemptOutcome o 2 with
        | Except.ok b => (Except.ok b, [EdgeTTS.Ev.attempt 2])
        | Except.error _ =>
            ((EdgeTTS.runAttempts o 1 3).1,
              EdgeTTS.Ev.attempt 2 :: EdgeTTS.Ev.wait 300
                :: (EdgeTTS.runAttempts o 1 3).2) :=
    EdgeTTS.runAttempts_step o 1 2 (by decide)
  have hs3 : EdgeTTS.runAttempts o 1 3
      = match EdgeTTS.attemptOutcome o 3 with
        | Except.ok b => (Except.ok b, [EdgeTTS.Ev.attempt 3])
        | Except.error e => (Except.error e, [EdgeTTS.Ev.attempt 3]) :=
    EdgeTTS.runAttempts_final o 0
  refine ⟨?_, ?_, ?_, ?_, ?_⟩
  · cases ho1 : EdgeTTS.attemptOutcome o 1 with
    | ok b =>
        refine ⟨1, by omega, by omega, ?_⟩
        rw [hrun, hs1, ho1]
        rfl
    | error e1 =>
        cases ho2 : EdgeTTS.attemptOutcome o 2 with
        | ok b =>
            refine ⟨2, by omega, by omega, ?_⟩
            rw [hrun, hs1, ho1, hs2, ho2]
            rfl
        | error e2 =>
            refine ⟨3, by omega, by omega, ?_⟩
            rw [hrun, hs1, ho1, hs2, ho2, hs3]
            cases ho3 : EdgeTTS.attemptOutcome o 3 with
            | ok b => rfl
            | error e3 => rfl
  · intro b hb
    rw [hrun, hs1, hb]
    rfl
  · intro e1 b he1 hb
    rw [hrun, hs1, he1, hs2, hb]
    rfl
  · intro e1 e2 b he1 he2 hb
    rw [hrun, hs1, he1, hs2, he2, hs3, hb]
    rfl
  · intro e1 e2 e3 he1 he2 he3
    rw [hrun, hs1, he1, hs2, he2, hs3, he3]
    rfl

namespace EdgeTTS

/-- An oracle whose first attempt fails at the connection step, whose second
attempt fails at the synthesis step, and whose third attempt succeeds. -/
def exOracle : Oracle where
  connect := fun n => if n = 1 then Except.error "boom" else Except.ok ()
  synth := fun n => if n = 2 then Except.error "bad" else Except.ok [7]

end EdgeTTS

/-- C2 witness: with two simulated failures followed by a success, the fetch
succeeds and the trace is exactly three attempts with two 300 ms sleeps. -/
theorem edge_retry_two_failures_then_success :
    EdgeTTS.get_edge_tts EdgeTTS.exOracle = (Except.ok [7], EdgeTTS.expectedTrace 3) :=
  (edge_retry_policy EdgeTTS.exOracle).2.2.2.1
    (EdgeTTS.connectError "boom") (EdgeTTS.synthError "bad") [7] rfl rfl rfl

namespace Scheduler

/-- One queued transmission, abstracted to the durations of its two awaited
phases: the TTS fetch (`tts_task.await`) and the blocking playback
(`spawn_blocking(play_tones_and_audio).await`). -/
structure Item where
  fetchDur : ℕ
  playDur : ℕ
deriving DecidableEq, Repr

/-- The worker's processing record of one item: when it was dequeued, when
its playback started, and when its playback — and with it the item's
processing — finished. -/
structure Slot where
  dequeueAt : ℕ
  playStart : ℕ
  playEnd : ℕ
deriving DecidableEq, Repr

/-- The worker loop
`while let Some(req) = rx.recv().await { process_transmission(req).await }`:
the next `rx.recv()` only runs after `process_transmission` — which awaits
the fetch and then the blocking playback task — has returned, so each item's
slot starts at the previous item's `playEnd`.  `t` is the time the worker
becomes free. -/
def schedule : ℕ → List Item → List Slot
  | _, [] => []
  | t, it :: rest =>
      { dequeueAt := t, playStart := t + it.fetchDur,
        playEnd := t + it.fetchDur + it.playDur }
        :: schedule (t + it.fetchDur + it.playDur) rest

theorem schedule_length (items : List Item) (t : ℕ) :
    (schedule t items).length = items.length := by
  induction items generalizing t with
  | nil => rfl
  | cons it rest ih =>
      unfold schedule
      rw [List.length_cons, List.length_cons, ih]

theorem schedule_mem_lower (items : List Item) (t : ℕ) (s : Slot)
    (hs : s ∈ schedule t items) :
    t ≤ s.dequeueAt ∧ s.dequeueAt ≤ s.playStart ∧ s.playStart ≤ s.playEnd := by
  induction items generalizing t with
  | nil => simp [schedule] at hs
  | cons it rest ih =>
      unfold schedule at hs
      rcases List.mem_cons.mp hs with h | h
      · subst h
        refine ⟨le_refl t, Nat.le_add_right _ _, Nat.le_add_right _ _⟩
      · have := ih (t + it.fetchDur + it.playDur) h
        exact ⟨by omega, this.2.1, this.2.2⟩

theorem schedule_nonoverlap (items : List Item) (t : ℕ) (i j : ℕ)
    (hi : i < (schedule t items).length) (hj : j < (schedule t items).length)
    (hij : i < j) :
    ((schedule t items).get ⟨i, hi⟩).playEnd
      ≤ ((schedule t items).get ⟨j, hj⟩).playStart := by
  induction items generalizing t i j with
  | nil => simp [schedule] at hi
  | cons it rest ih =>
      cases i with
      | zero =>
          cases j with
          | zero => omega
          | succ j =>
              have hj' : j < (schedule (t + it.fetchDur + it.playDur) rest).length := by
                simpa [schedule] using hj
              have hmem : (schedule (t + it.fetchDur + it.playDur) rest).get ⟨j, hj'⟩
                  ∈ schedule (t + it.fetchDur + it.playDur) rest := List.get_mem _ j hj'
              have hlow := schedule_mem_lower rest (t + it.fetchDur + it.playDur) _ hmem
              simpa [schedule] using le_trans hlow.1 hlow.2.1
      | succ i =>
          cases j with
          | zero => omega
          | succ j =>
              have hi' : i < (schedule (t + it.fetchDur + it.playDur) rest).length := by
                simpa [schedule] using hi
              have hj' : j < (schedule (t + it.fetchDur + it.playDur) rest).length := by
                simpa [schedule] using hj
              have := ih (t + it.fetchDur + it.playDur) i j hi' hj' (by omega)
              simpa [schedule] using this

theorem schedule_dequeue_barrier (items : List Item) (t : ℕ) (k : ℕ)
    (hk : k + 1 < (schedule t items).length) :
    ((schedule t items).get ⟨k + 1, hk⟩).dequeueAt
      = ((schedule t items).get ⟨k, Nat.lt_of_succ_lt hk⟩).playEnd := by
  induction items generalizing t k with
  | nil => simp [schedule] at hk
  | cons it rest ih =>
      cases k with
      | zero =>
          cases rest with
          | nil => simp [schedule] at hk
          | cons it2 rest2 => simp [schedule]
      | succ k =>
          have hk' : k + 1 < (schedule (t + it.fetchDur + it.playDur) rest).length := by
            simpa [schedule] using hk
          have := ih (t + it.fetchDur + it.playDur) k hk'
          simpa [schedule] using this

theorem schedule_get_spec (items : List Item) (t : ℕ) (k : ℕ)
    (hk : k < items.length) (hk2 : k < (schedule t items).length) :
    ((schedule t items).get ⟨k, hk2⟩).playStart
        = ((schedule t items).get ⟨k, hk2⟩).dequeueAt + (items.get ⟨k, hk⟩).fetchDur ∧
    ((schedule t items).get ⟨k, hk2⟩).playEnd
        = ((schedule t items).get ⟨k, hk2⟩).playStart + (items.get ⟨k, hk⟩).playDur := by
  induction items generalizing t k with
  | nil => simp at hk
  | cons it rest ih =>
      cases k with
      | zero => simp [schedule]
      | succ k =>
          have hk' : k < rest.length := by simpa using hk
          have hk2' : k < (schedule (t + it.fetchDur + it.playDur) rest).length := by
            simpa [schedule] using hk2
          have := ih (t + it.fetchDur + it.playDur) k hk' hk2'
          simpa [schedule] using this

end Scheduler

/-- C1: the worker processes queued items in strict FIFO order, one at a
time: the schedule has one slot per enqueued item in order, each item's
playback starts after its own fetch and ends after its playback duration,
the next item is dequeued exactly when the previous item's playback ends,
and the playback intervals of distinct items never overlap (the earlier
item's playback ends no later than the later item's playback starts). -/
theorem scheduler_fifo_and_non_overlap (t0 : ℕ) (items : List Scheduler.Item) :
    (Scheduler.schedule t0 items).length = items.length ∧
    (∀ k (hk : k < items.length) (hk2 : k < (Scheduler.schedule t0 items).length),
      ((Scheduler.schedule t0 items).get ⟨k, hk2⟩).playStart
          = ((Scheduler.schedule t0 items).get ⟨k, hk2⟩).dequeueAt
            + (items.get ⟨k, hk⟩).fetchDur ∧
      ((Scheduler.schedule t0 items).get ⟨k, hk2⟩).playEnd
          = ((Scheduler.schedule t0 items).get ⟨k, hk2⟩).playStart
            + (items.get ⟨k, hk⟩).playDur) ∧
    (∀ k (hk : k + 1 < (Scheduler.schedule t0 items).length),
      ((Scheduler.schedule t0 items).get ⟨k + 1, hk⟩).dequeueAt
          = ((Scheduler.schedule t0 items).get ⟨k, Nat.lt_of_succ_lt hk⟩).playEnd) ∧
    (∀ i j (hi : i < (Scheduler.schedule t0 items).length)
        (hj : j < (Scheduler.schedule t0 items).length), i < j →
      ((Scheduler.schedule t0 items).get ⟨i, hi⟩).playEnd
          ≤ ((Scheduler.schedule t0 items).get ⟨j, hj⟩).playStart) :=
  ⟨Scheduler.schedule_length items t0,
   fun k hk hk2 => Scheduler.schedule_get_spec items t0 k hk hk2,
   fun k hk => Scheduler.schedule_dequeue_barrier items t0 k hk,
   fun i j hi hj hij => Scheduler.schedule_nonoverlap items t0 i j hi hj hij⟩

namespace Scheduler

/-- A concrete three-item queue: fetch/playback durations 2/5, 0/4 and 3/0. -/
def exItems : List Item := [⟨2, 5⟩, ⟨0, 4⟩, ⟨3, 0⟩]

end Scheduler

/-- C1 witness: on the concrete queue, the first item's playback ends before
the second one's starts, and the second item is dequeued exactly at the first
item's playback end. -/
theorem scheduler_example_run :
    ((Scheduler.schedule 0 Scheduler.exItems).get ⟨0, by decide⟩).playEnd
        ≤ ((Scheduler.schedule 0 Scheduler.exItems).get ⟨1, by decide⟩).playStart ∧
    ((Scheduler.schedule 0 Scheduler.exItems).get ⟨1, by decide⟩).dequeueAt
        = ((Scheduler.schedule 0 Scheduler.exItems).get ⟨0, by decide⟩).playEnd :=
  ⟨(scheduler_fifo_and_non_overlap 0 Scheduler.exItems).2.2.2 0 1
      (by decide) (by decide) (by decide),
   (scheduler_fifo_and_non_overlap 0 Scheduler.exItems).2.2.1 0 (by decide)⟩

/-- The TTS provider, `enum TtsProvider { Edge, OpenAI }`. -/
inductive TtsProvider where
  | Edge
  | OpenAI
deriving DecidableEq, Repr

/-- `TtsProvider::from_env`: `DEFAULT_TTS=OPENAI` selects OpenAI,
`DEFAULT_TTS=EDGE` selects Edge, anything else — including an unset
variable — defaults to Edge. -/
def TtsProvider.from_env (defaultTts : Option String) : TtsProvider :=
  match defaultTts with
  | some "OPENAI" => TtsProvider.OpenAI
  | some "EDGE" => TtsProvider.Edge
  | _ => TtsProvider.Edge

namespace Process

/-- The externally observable steps of `process_transmission`. -/
inductive Action where
  | toast
  | fetch (p : TtsProvider)
  | playback
deriving DecidableEq, Repr

/-- Process-wide configuration as read at processing time (`DEFAULT_TTS`,
`OPENAI_API_KEY`), plus an oracle for the selected backend's fetch outcome. -/
structure Env where
  defaultTts : Option String
  apiKey : Option String
  fetchOutcome : TtsProvider → Except String (List ℕ)

/-- The request field `process_transmission` branches on (the remaining
fields — text, voice, instructions, speed, volume, tone — are forwarded to
the fetch and the playback but decide no control flow before playback). -/
structure Request where
  enableToast : Bool
deriving DecidableEq, Repr

/-- The action trace of `process_transmission`: optional toast notification;
then the OpenAI credential check, returning early (discarding the item, no
fetch, no playback) when the key is missing; then the TTS fetch; on a fetch
error an early return discards the item with no playback; otherwise the
blocking playback runs. -/
def process_transmission (env : Env) (req : Request) : List Action :=
  (if req.enableToast then [Action.toast] else []) ++
  (let provider := TtsProvider.from_env env.defaultTts
   if provider = TtsProvider.OpenAI ∧ env.apiKey = none then []
   else
     Action.fetch provider ::
       match env.fetchOutcome provider with
       | Except.error _ => []
       | Except.ok _ => [Action.playback])

/-- The worker loop over the queue: every request is processed in order;
`process_transmission` always returns (failures only cut an item short), so
the loop reaches every item. -/
def transmission_queue_processor (env : Env) (reqs : List Request) :
    List (List Action) :=
  reqs.map (process_transmission env)

end Process

/-- C3: a request whose fetch step fails is discarded without any playback:
with the OpenAI backend selected and no `OPENAI_API_KEY`, the item is dropped
before any fetch (and without playback); with a failing fetch, the item is
dropped without playback; and the worker processes every queued item in
order regardless — one trace per request, each independent of the others. -/
theorem fetch_failure_discards_item_without_playback
    (env : Process.Env) (req : Process.Request) (reqs : List Process.Request) :
    (TtsProvider.from_env env.defaultTts = TtsProvider.OpenAI → env.apiKey = none →
      (∀ p, Process.Action.fetch p ∉ Process.process_transmission env req) ∧
      Process.Action.playback ∉ Process.process_transmission env req) ∧
    (∀ e, env.fetchOutcome (TtsProvider.from_env env.defaultTts) = Except.error e →
      Process.Action.playback ∉ Process.process_transmission env req) ∧
    (Process.transmission_queue_processor env reqs).length = reqs.length ∧
    (∀ k (hk : k < reqs.length)
        (hk2 : k < (Process.transmission_queue_processor env reqs).length),
      (Process.transmission_queue_processor env reqs).get ⟨k, hk2⟩
        = Process.process_transmission env (reqs.get ⟨k, hk⟩)) := by
  refine ⟨?_, ?_, ?_, ?_⟩
  · intro hP hK
    constructor
    · intro p
      cases hT : req.enableToast <;>
        simp [Process.process_transmission, hP, hK, hT]
    · cases hT : req.enableToast <;>
        simp [Process.process_transmission, hP, hK, hT]
  · intro e he
    by_cases hc : TtsProvider.from_env env.defaultTts = TtsProvider.OpenAI
        ∧ env.apiKey = none
    · cases hT : req.enableToast <;>
        simp [Process.process_transmission, hc, hT]
    · cases hT : req.enableToast <;>
        simp [Process.process_transmission, hc, hT, he]
  · simp [Process.transmission_queue_processor]
  · intro k hk hk2
    simp [Process.transmission_queue_processor, List.get_eq_getElem,
      List.getElem_map]

namespace Process

/-- A configuration selecting OpenAI with no credential. -/
def exEnvNoKey : Env where
  defaultTts := some "OPENAI"
  apiKey := none
  fetchOutcome := fun _ => Except.ok [1]

/-- A configuration whose fetch always fails. -/
def exEnvBadNet : Env where
  defaultTts := none
  apiKey := none
  fetchOutcome := fun _ => Except.error "network down"

end Process

/-- C3 witness: with OpenAI selected and no key, the item is discarded with
neither fetch nor playback; with a failing Edge fetch, the item is discarded
without playback. -/
theorem fetch_failure_discard_examples :
    Process.Action.playback ∉ Process.process_transmission Process.exEnvNoKey ⟨true⟩ ∧
    Process.Action.fetch TtsProvider.OpenAI
      ∉ Process.process_transmission Process.exEnvNoKey ⟨true⟩ ∧
    Process.Action.playback ∉ Process.process_transmission Process.exEnvBadNet ⟨false⟩ :=
  ⟨((fetch_failure_discards_item_without_playback Process.exEnvNoKey ⟨true⟩ []).1
      rfl rfl).2,
   ((fetch_failure_discards_item_without_playback Process.exEnvNoKey ⟨true⟩ []).1
      rfl rfl).1 TtsProvider.OpenAI,
   (fetch_failure_discards_item_without_playback Process.exEnvBadNet ⟨false⟩ []).2.1
      "network down" rfl⟩

/-- `enum ToneType { Quindar, None, ThreeNote }`. -/
inductive ToneType where
  | Quindar
  | NoTone
  | ThreeNote
deriving DecidableEq, Repr

namespace Playback

/-- ASCII lowercasing of one code point, as `eq_ignore_ascii_case` compares. -/
def asciiLowerByte (n : ℕ) : ℕ := if 65 ≤ n ∧ n ≤ 90 then n + 32 else n

/-- Rust's `str::eq_ignore_ascii_case`: equality after ASCII lowercasing. -/
def eqIgnoreAsciiCase (a b : String) : Bool :=
  (a.data.map fun c => asciiLowerByte c.toNat)
    == (b.data.map fun c => asciiLowerByte c.toNat)

/-- `is_headless_mode`: the `HEADLESS_MODE` variable set to `"true"` (compared
ASCII-case-insensitively) or `"1"`; unset means not headless. -/
def is_headless_mode (v : Option String) : Bool :=
  match v with
  | some s => eqIgnoreAsciiCase s "true" || s == "1"
  | none => false

/-- The environment of `play_tones_and_audio`: the `HEADLESS_MODE` variable,
whether the default output stream and the sink can be created, and whether
the decoder accepts the given bytes. -/
structure AudioEnv where
  headlessVar : Option String
  outputStreamOk : Bool
  sinkOk : Bool
  decodes : List ℕ → Bool

set_option linter.unusedVariables false in
/-- `play_tones_and_audio`, with its result paired with whether an output
device was opened (whether `OutputStream::try_default()` was reached): in
headless mode the function returns `Ok(())` immediately, before any device,
sink, tone or decoder work; otherwise it opens the device, creates the sink,
appends the opening tone for the variant, decodes the speech bytes (failing
with a decode error), appends speech and closing tone and drains the sink. -/
def play_tones_and_audio (env : AudioEnv) (audioBytes : List ℕ) (volume : ℚ)
    (tone : ToneType) : Except String Unit × Bool :=
  if is_headless_mode env.headlessVar then (Except.ok (), false)
  else if env.outputStreamOk = false then
    (Except.error "Failed to create output stream", true)
  else if env.sinkOk = false then (Except.error "Failed to create sink", true)
  else if env.decodes audioBytes = false then
    (Except.error "Failed to decode audio", true)
  else (Except.ok (), true)

end Playback

/-- C9: in headless mode `play_tones_and_audio` returns `Ok` for every input
— any audio bytes, volume and tone variant — without opening or touching an
output device: rendering is a no-op that still reports success. -/
theorem headless_playback_always_succeeds :
    ∀ (hv : Option String) (streamOk sinkOk : Bool) (dec : List ℕ → Bool)
      (audio : List ℕ) (volume : ℚ) (tone : ToneType),
      Playback.is_headless_mode hv = true →
      Playback.play_tones_and_audio ⟨hv, streamOk, sinkOk, dec⟩ audio volume tone
        = (Except.ok (), false) := by
  intro hv streamOk sinkOk dec audio volume tone hh
  unfold Playback.play_tones_and_audio
  rw [if_pos hh]

/-- C9 witness: with `HEADLESS_MODE=true`, a failing device, a failing sink
and a rejecting decoder, playback still reports success and never opens a
device. -/
theorem headless_playback_example :
    Playback.is_headless_mode (some "true") = true ∧
    Playback.play_tones_and_audio
        ⟨some "true", false, false, fun _ => false⟩ [0] 2 ToneType.Quindar
      = (Except.ok (), false) :=
  ⟨by decide,
   headless_playback_always_succeeds (some "true") false false (fun _ => false)
     [0] 2 ToneType.Quindar (by decide)⟩
